import Mathlib

/-!
Verification development for the `lens-rs` build-time optics generator
(`lens-rs_generator/build.rs`).

The generator scans workspace source files for fields/variants tagged
`#[optic]` (and, with the `structx` feature, `structx!`/`Structx!` macro
invocations and `#[named_args]` functions), aggregates the discovered
names into a set, removes reserved names, sorts, renders one declaration
block per surviving name, prints `cargo:rerun-if-changed` directives when
the new output matches the previously persisted one, and finally writes
the output file.

The embedding below models the `syn` syntax-tree boundary as plain
inductive data (the parser itself is an opaque upstream collaborator:
its outcomes appear as constructors), and the logic of the generator is
translated function by function from `build.rs`.
-/

namespace LensGen

/-! ## The `syn` boundary: paths, attributes, items -/

/-- One segment of a `syn::Path`: its identifier and whether it carries
angle-bracketed/parenthesized path arguments (`syn::PathArguments`). -/
structure PathSegment where
  ident : String
  hasArguments : Bool
deriving DecidableEq, Repr

/-- A `syn::Path`: optional leading `::` and a list of segments. -/
structure SynPath where
  leadingColon : Bool
  segments : List PathSegment
deriving DecidableEq, Repr

/-- `syn::Path::is_ident`: no leading colon, exactly one segment, that
segment has no path arguments, and its identifier equals `name`. -/
def SynPath.is_ident (p : SynPath) (name : String) : Bool :=
  !p.leadingColon &&
    match p.segments with
    | [seg] => !seg.hasArguments && seg.ident == name
    | _ => false

/-- A `syn::Attribute`: its path plus the raw argument tokens it carries
(e.g. the `(ref)` in `#[optic(ref)]`). Tag detection in `build.rs` only
ever inspects the path. -/
structure Attribute where
  path : SynPath
  tokens : List String
deriving DecidableEq, Repr

/-- A named struct field: identifier and attributes (`syn::Field` with
`ident = Some _`). -/
structure Field where
  ident : String
  attrs : List Attribute
deriving DecidableEq, Repr

/-- An enum variant: identifier and attributes (`syn::Variant`). -/
structure Variant where
  ident : String
  attrs : List Attribute
deriving DecidableEq, Repr

/-- `syn::Fields` of a struct declaration: named fields, unnamed (tuple)
fields which only carry attributes, or a unit struct. -/
inductive StructFields where
  | named (fields : List Field)
  | unnamed (fieldAttrs : List (List Attribute))
  | unit
deriving DecidableEq, Repr

/-- A member inside a struct pattern (`syn::Member`): a named field or a
positional (tuple-index) member. -/
inductive Member where
  | named (ident : String)
  | unnamed
deriving DecidableEq, Repr

/-- The shape of a `syn::Pat` as far as `parse_structx` inspects it:
either a struct pattern with its members, or any other pattern form. -/
inductive SynPat where
  | structPat (fields : List Member)
  | otherPat
deriving DecidableEq, Repr

/-- Outcome of `syn::parse2::<syn::Pat>` on the brace-wrapped token
stream of a `structx!` invocation: parse failure, or a parsed pattern.
The parser is opaque, so its outcome is recorded at the boundary. -/
inductive PatParseResult where
  | err
  | ok (p : SynPat)
deriving DecidableEq, Repr

/-- A function parameter (`syn::FnArg`): a receiver (`self`), a typed
argument whose pattern is a simple identifier binding, or a typed
argument with any other pattern. -/
inductive FnArg where
  | receiver
  | typedIdent (ident : String)
  | typedOther
deriving DecidableEq, Repr

/-- A top-level item of a parsed file, restricted to what the
`OpticsCollector` visitor inspects. For a macro invocation the opaque
outcome of parsing its brace-wrapped tokens as a pattern is stored
alongside the macro path. -/
inductive Item where
  | structItem (fields : StructFields)
  | enumItem (variants : List Variant)
  | macroItem (path : SynPath) (tokensPat : PatParseResult)
  | fnItem (attrs : List Attribute) (inputs : List FnArg)
  | otherItem
deriving DecidableEq, Repr

/-- A parsed source file: the sequence of items the visitor walks. -/
abbrev File := List Item

/-! ## Tag detection (`variant_with_optic_attr`, `field_with_optic_attr`) -/

/-- `variant_with_optic_attr`: the path of some attribute satisfies `is_ident "optic"`. -/
def variant_with_optic_attr (var : Variant) : Bool :=
  var.attrs.any fun attr => attr.path.is_ident "optic"

/-- `field_with_optic_attr`: the path of some attribute satisfies `is_ident "optic"`. -/
def field_with_optic_attr (field : Field) : Bool :=
  field.attrs.any fun attr => attr.path.is_ident "optic"

/-! ## The structx extension (`parse_structx`, `visit_macro`, `visit_item_fn`) -/

/-- The name contributed by one struct-pattern member inside
the closure in `parse_structx`: a named member yields its identifier, an
unnamed member panics. -/
def memberName : Member → Except String String
  | .named s => .ok s
  | .unnamed => .error "structx! fields should have names."

/-- Names of all members in order, stopping at the first panic
(mirrors evaluating the `map` closure over `pat_struct.fields`). -/
def memberNames : List Member → Except String (List String)
  | [] => .ok []
  | m :: ms =>
    match memberName m with
    | .error e => .error e
    | .ok s =>
      match memberNames ms with
      | .error e => .error e
      | .ok rest => .ok (s :: rest)

/-- `OpticsCollector::parse_structx`, acting on the opaque outcome of
`syn::parse2::<syn::Pat>(wrap_struct_name("structx_", input))`:
* parse failure: the `if let Ok` falls through — nothing inserted,
  no panic;
* a struct pattern: each named member contributes its name, an unnamed
  member panics;
* any other pattern: panic. -/
def parse_structx (r : PatParseResult) : Except String (List String) :=
  match r with
  | .err => .ok []
  | .ok (.structPat fields) => memberNames fields
  | .ok .otherPat => .error "structx! supported pattern matching is struct only."

/-- The path test in `visit_macro`: no leading colon, exactly one
segment, that segment has no arguments and is `structx` or `Structx`. -/
def isStructxMacroPath (p : SynPath) : Bool :=
  !p.leadingColon &&
    match p.segments with
    | [seg] => !seg.hasArguments && (seg.ident == "structx" || seg.ident == "Structx")
    | _ => false

/-- The attribute test in `visit_item_fn`: no leading colon, exactly one
segment whose identifier is `named_args` (no argument check here,
unlike `is_ident`). -/
def isNamedArgsAttr (a : Attribute) : Bool :=
  !a.path.leadingColon &&
    match a.path.segments with
    | [seg] => seg.ident == "named_args"
    | _ => false

/-- Names contributed by the parameters of a `#[named_args]` function:
receivers are skipped, simple identifier bindings contribute their name,
anything else panics. -/
def namedArgsParamNames : List FnArg → Except String (List String)
  | [] => .ok []
  | .receiver :: rest => namedArgsParamNames rest
  | .typedIdent s :: rest =>
    match namedArgsParamNames rest with
    | .error e => .error e
    | .ok ns => .ok (s :: ns)
  | .typedOther :: _ =>
    .error "#[named_args] function arguments should be either receiver or id: Type."

/-! ## The visitor over one item / one file -/

/-- The names one item inserts into the optics set, or the panic message
if visiting it aborts the run (structx feature enabled). -/
def collectItem : Item → Except String (List String)
  | .structItem (.named fields) =>
    .ok ((fields.filter field_with_optic_attr).map Field.ident)
  | .structItem (.unnamed _) => .ok []
  | .structItem .unit => .ok []
  | .enumItem variants =>
    .ok ((variants.filter variant_with_optic_attr).map Variant.ident)
  | .macroItem path tokensPat =>
    if isStructxMacroPath path then parse_structx tokensPat else .ok []
  | .fnItem attrs inputs =>
    if attrs.any isNamedArgsAttr then namedArgsParamNames inputs else .ok []
  | .otherItem => .ok []

/-- `visit_file`: visit every item in order, concatenating the inserted
names; a panic anywhere aborts. -/
def collectFile : File → Except String (List String)
  | [] => .ok []
  | item :: rest =>
    match collectItem item with
    | .error e => .error e
    | .ok ns =>
      match collectFile rest with
      | .error e => .error e
      | .ok more => .ok (ns ++ more)

/-! ## Reserved-name filter, sort, emission (`main`, lines 31–74) -/

/-- The reserved-name test: the `matches!` filter in `main`. -/
def isReservedName (o : String) : Bool :=
  match o with
  | "Some" | "None" | "Ok" | "Err"
  | "_0" | "_1" | "_2" | "_3" | "_4" | "_5" | "_6" | "_7" | "_8"
  | "_9" | "_10" | "_11" | "_12" | "_13" | "_14" | "_15" | "_16" => true
  | _ => false

/-- Lexicographic comparison of character lists by code point. the Rust
`Vec<String>::sort` orders strings lexicographically by UTF-8 bytes,
which coincides with lexicographic order on Unicode scalar values. -/
def charListLe : List Char → List Char → Bool
  | [], _ => true
  | _ :: _, [] => false
  | a :: as, b :: bs =>
    if a < b then true else if a = b then charListLe as bs else false

/-- String comparison used by the sort: byte-lexicographic. -/
def strLe (a b : String) : Bool :=
  charListLe a.data b.data

/-- The sorting relation as a proposition. -/
def strLeRel (a b : String) : Prop :=
  strLe a b = true

instance : DecidableRel strLeRel :=
  fun a b => show Decidable (strLe a b = true) from inferInstance

/-- The optics set iterated, filtered and sorted: the `HashSet` is
modelled as first-occurrence deduplication of the inserted names, the
`Vec::sort` as sorting ascending by the byte-lexicographic order. -/
def canonicalize (names : List String) : List String :=
  List.insertionSort strLeRel ((names.dedup).filter fun o => !isReservedName o)

/-- The declaration block appended per optic name: the raw format string
of `main` with the name spliced in. Its literal content is
a blank line, a blank line, the derive line, the allow line, the struct
line, a blank line (each line newline-terminated). -/
def declBlock (name : String) : String :=
  "\n\n#[derive(Copy, Clone, Debug, Eq, PartialEq)]\n#[allow(non_camel_case_types)]\npub struct "
    ++ name ++ "<Optics>(pub Optics);\n\n"

/-- The emission loop: `output += format!(..., optic_name)` over the
sorted names. -/
def emit (names : List String) : String :=
  names.foldl (fun acc n => acc ++ declBlock n) ""

/-! ## Incremental decision (`main`, lines 79–91) -/

/-- The `cargo:rerun-if-changed` directive for one manifest path. -/
def rerunDirective (manifest : String) : String :=
  "cargo:rerun-if-changed=" ++ manifest

/-- The directives printed by the incremental decision: when the read of
the existing output succeeds and its content equals the new output, one
directive per collected manifest; otherwise none. -/
def rerunDirectives (prevRead : Option String) (newOutput : String)
    (manifests : List String) : List String :=
  match prevRead with
  | some file => if file = newOutput then manifests.map rerunDirective else []
  | none => []

/-! ## The whole run (`main`) -/

/-- The per-file outcome of reading and parsing one source path, at the
opaque filesystem/parser boundary: the `fs::read` may fail (its `unwrap`
panics), the bytes may not be UTF-8 (the second `unwrap` panics), and
`syn::parse_file` may fail (the file is skipped) or yield a file. -/
inductive FileOutcome where
  | readError
  | utf8Error
  | parseFail
  | parsed (f : File)
deriving DecidableEq, Repr

/-- One `inwelling` section: its manifest path and its source files,
each recorded by its read/parse outcome. -/
structure InwellingSection where
  manifest : String
  files : List FileOutcome
deriving DecidableEq, Repr

/-- Processing one source path inside the loop of `main`: the two `unwrap` calls
panic on read/UTF-8 failure, a parse failure is skipped (`if let Ok`),
and a parsed file is visited. -/
def scanOutcome : FileOutcome → Except String (List String)
  | .readError => .error "called `Result::unwrap()` on an `Err` value"
  | .utf8Error => .error "called `Result::unwrap()` on an `Err` value"
  | .parseFail => .ok []
  | .parsed f => collectFile f

/-- The scanning loop over the files of one section, concatenating inserted
names; a panic anywhere aborts. -/
def collectFiles : List FileOutcome → Except String (List String)
  | [] => .ok []
  | fo :: rest =>
    match scanOutcome fo with
    | .error e => .error e
    | .ok ns =>
      match collectFiles rest with
      | .error e => .error e
      | .ok more => .ok (ns ++ more)

/-- The scanning loop over all sections. -/
def collectSections : List InwellingSection → Except String (List String)
  | [] => .ok []
  | sec :: rest =>
    match collectFiles sec.files with
    | .error e => .error e
    | .ok ns =>
      match collectSections rest with
      | .error e => .error e
      | .ok more => .ok (ns ++ more)

/-- An observable side effect of a run: a line printed to stdout for the
build orchestration, or a write of the output file. -/
inductive Effect where
  | directive (line : String)
  | wrote (path content : String)
deriving DecidableEq, Repr

/-- The whole input of one generator run, with every opaque boundary
outcome fixed up front: the discovered sections, the `OUT_DIR`
environment variable, and the result of `fs::read_to_string` on the
previously persisted output. -/
structure RunInput where
  sections : List InwellingSection
  outDir : Option String
  prevRead : Option String

/-- The decision-and-write tail of `main` (lines 79–91): print the
rerun directives when the previous output was read back and equals the
new output, then unconditionally write the new output. -/
def decisionStage (prevRead : Option String) (newOutput : String)
    (manifests : List String) (outPath : String) : List Effect :=
  (rerunDirectives prevRead newOutput manifests).map Effect.directive
    ++ [Effect.wrote outPath newOutput]

/-- `main`, as a function from a run input to the ordered list of
effects produced and the panic message if the run aborts: scan all
sections (aborting on read/UTF-8/usage panics), filter and sort the
set, emit the output, resolve `OUT_DIR` (its `expect` panics when
absent), then run the decision-and-write tail. No effect precedes a
panic, since `main` prints and writes only after scanning and emission
succeed. -/
def mainRun (inp : RunInput) : List Effect × Option String :=
  match collectSections inp.sections with
  | .error e => ([], some e)
  | .ok names =>
    match inp.outDir with
    | none => ([], some "$OUT_DIR should exist.")
    | some dir =>
      let output := emit (canonicalize names)
      let outPath := dir ++ "/optics.rs"
      let manifests := inp.sections.map InwellingSection.manifest
      (decisionStage inp.prevRead output manifests outPath, none)

/-! ## Derived definitions used by the claim statements -/

/-- The value of an `Except` computation, defaulting to `[]` on error;
used to name the collected names of a successful run. -/
def exceptVal : Except String (List String) → List String
  | .ok ns => ns
  | .error _ => []

/-- Whether a scanning step panics (aborts the run). -/
def isFatal (r : Except String (List String)) : Bool :=
  match r with
  | .error _ => true
  | .ok _ => false

/-- Concatenation of a list of strings in order. -/
def concatAll : List String → String
  | [] => ""
  | s :: ss => s ++ concatAll ss

/-- Concatenation with a separator between consecutive elements. -/
def sepConcat (sep : String) : List String → String
  | [] => ""
  | [s] => s
  | s :: ss => s ++ sep ++ sepConcat sep ss

/-- The three content lines of one declaration block (derive line, allow
line, struct line), without any surrounding blank lines; the struct line
is not newline-terminated. -/
def coreBlock (name : String) : String :=
  "#[derive(Copy, Clone, Debug, Eq, PartialEq)]\n#[allow(non_camel_case_types)]\npub struct "
    ++ name ++ "<Optics>(pub Optics);"

/-- Modelled from the words of the claim, for comparison with `emit`: one
block per name is the three content lines (each newline-terminated),
consecutive blocks are separated by exactly one blank line, and the
final block is followed by its trailing blank line and nothing else. -/
def claimShapedEmit (names : List String) : String :=
  concatAll (names.map fun n => coreBlock n ++ "\n\n")

/-- Modelled from the words of the claim: the outcome of parsing the
wrapped tokens of a `structx` invocation is a valid named-field struct
pattern. -/
def validNamedFieldPat (r : PatParseResult) : Prop :=
  ∃ fields, r = PatParseResult.ok (SynPat.structPat fields) ∧ Member.unnamed ∉ fields

/-- The reserved names, listed: the maybe-style and result-style
alternative-constructor names and the seventeen positional tuple-field
names `_0`..`_16`. -/
def reservedNamesList : List String :=
  ["Some", "None", "Ok", "Err",
   "_0", "_1", "_2", "_3", "_4", "_5", "_6", "_7", "_8",
   "_9", "_10", "_11", "_12", "_13", "_14", "_15", "_16"]

/-- The attribute `#[optic]`: path `optic`, single unqualified segment,
no path arguments, no argument tokens. -/
def opticAttr : Attribute :=
  ⟨⟨false, [⟨"optic", false⟩]⟩, []⟩

/-- The file containing `struct Point { #[optic] x: i32, #[optic] y: i32 }`. -/
def pointFile : File :=
  [Item.structItem (StructFields.named [⟨"x", [opticAttr]⟩, ⟨"y", [opticAttr]⟩])]

/-! ## Helper lemmas: the sorting order -/

theorem charListLe_total : ∀ as bs : List Char, charListLe as bs = true ∨ charListLe bs as = true
  | [], _ => Or.inl rfl
  | _ :: _, [] => Or.inr rfl
  | a :: as, b :: bs => by
    by_cases hab : a < b
    · exact Or.inl (by simp [charListLe, hab])
    · by_cases heq : a = b
      · subst heq
        rcases charListLe_total as bs with h | h
        · exact Or.inl (by simp [charListLe, h])
        · exact Or.inr (by simp [charListLe, h])
      · have hba : b < a := lt_of_le_of_ne (le_of_not_lt hab) (fun h => heq h.symm)
        exact Or.inr (by simp [charListLe, hba])

theorem charListLe_trans : ∀ as bs cs : List Char,
    charListLe as bs = true → charListLe bs cs = true → charListLe as cs = true
  | [], _, _ => fun _ _ => rfl
  | _ :: _, [], _ => fun h _ => by simp [charListLe] at h
  | _ :: _, _ :: _, [] => fun _ h => by simp [charListLe] at h
  | a :: as, b :: bs, c :: cs => fun h1 h2 => by
    simp only [charListLe] at h1 h2 ⊢
    split_ifs at h1 with hab hab' <;> split_ifs at h2 with hbc hbc'
    all_goals subst_vars
    · have : a < c := lt_trans hab hbc
      simp [this]
    · simp [hab]
    · simp [hbc]
    · have := charListLe_trans as bs cs h1 h2
      simp [this]

theorem charListLe_antisymm : ∀ as bs : List Char,
    charListLe as bs = true → charListLe bs as = true → as = bs
  | [], [] => fun _ _ => rfl
  | [], _ :: _ => fun _ h => by simp [charListLe] at h
  | _ :: _, [] => fun h _ => by simp [charListLe] at h
  | a :: as, b :: bs => fun h1 h2 => by
    simp only [charListLe] at h1 h2
    split_ifs at h1 with hab hab' <;> split_ifs at h2 with hba hba'
    all_goals first
      | (exact absurd hba (lt_asymm hab))
      | (subst_vars
         first
           | (exact absurd hab (lt_irrefl _))
           | (exact absurd hba (lt_irrefl _))
           | rfl
           | (exact congrArg _ (charListLe_antisymm as bs h1 h2)))

instance : IsTotal String strLeRel :=
  ⟨fun a b => charListLe_total a.data b.data⟩

instance : IsTrans String strLeRel :=
  ⟨fun a b c => charListLe_trans a.data b.data c.data⟩

instance : IsAntisymm String strLeRel :=
  ⟨fun a b h1 h2 => String.ext (charListLe_antisymm a.data b.data h1 h2)⟩

/-! ## Helper lemmas: emission shape -/

theorem str_append_empty : ∀ s : String, s ++ "" = s
  | ⟨d⟩ => congrArg String.mk (List.append_nil d)

theorem emit_foldl (names : List String) (acc : String) :
    names.foldl (fun acc n => acc ++ declBlock n) acc
      = acc ++ concatAll (names.map declBlock) := by
  induction names generalizing acc with
  | nil => simp [concatAll, str_append_empty]
  | cons a rest ih =>
    simp only [List.foldl_cons, List.map_cons, concatAll]
    rw [ih, String.append_assoc]

theorem emit_eq_concatAll (names : List String) :
    emit names = concatAll (names.map declBlock) := by
  rw [emit, emit_foldl]
  rfl

theorem declBlock_decomp (n : String) :
    declBlock n = "\n\n" ++ coreBlock n ++ "\n\n" := by
  simp only [declBlock, coreBlock, String.append_assoc]
  rfl

theorem concatAll_blocks : ∀ (n : String) (rest : List String),
    concatAll ((n :: rest).map declBlock)
      = "\n\n" ++ sepConcat "\n\n\n\n" ((n :: rest).map coreBlock) ++ "\n\n"
  | n, [] => by
    simp only [List.map_cons, List.map_nil, concatAll, sepConcat, str_append_empty]
    exact declBlock_decomp n
  | n, b :: rest => by
    have ih := concatAll_blocks b rest
    simp only [List.map_cons, concatAll] at ih ⊢
    rw [ih, declBlock_decomp n]
    simp only [sepConcat, String.append_assoc]
    rfl

/-! ## Helper lemmas: the collected name multiset -/

theorem canonicalize_perm {l1 l2 : List String} (h : l1.Perm l2) :
    canonicalize l1 = canonicalize l2 := by
  apply List.eq_of_perm_of_sorted (r := strLeRel)
  · exact ((List.perm_insertionSort _ _).trans
      ((h.dedup).filter _)).trans (List.perm_insertionSort _ _).symm
  · exact List.sorted_insertionSort _ _
  · exact List.sorted_insertionSort _ _

theorem collectFiles_ok_val : ∀ (l : List FileOutcome) (n : List String),
    collectFiles l = .ok n → n = (l.map fun fo => exceptVal (scanOutcome fo)).flatten
  | [], n => by
    intro h
    simp only [collectFiles, Except.ok.injEq] at h
    simp [← h]
  | fo :: rest, n => by
    intro h
    simp only [collectFiles] at h
    cases hs : scanOutcome fo with
    | error e => rw [hs] at h; cases h
    | ok ns =>
      rw [hs] at h
      cases hr : collectFiles rest with
      | error e => rw [hr] at h; cases h
      | ok more =>
        rw [hr] at h
        simp only [Except.ok.injEq] at h
        subst h
        have := collectFiles_ok_val rest more hr
        simp [hs, exceptVal, this]

theorem collectFiles_append : ∀ l1 l2 : List FileOutcome,
    collectFiles (l1 ++ l2)
      = match collectFiles l1 with
        | .error e => .error e
        | .ok ns =>
          match collectFiles l2 with
          | .error e => .error e
          | .ok more => .ok (ns ++ more)
  | [], l2 => by
    simp only [List.nil_append, collectFiles]
    cases collectFiles l2 <;> simp
  | fo :: rest, l2 => by
    simp only [List.cons_append, collectFiles, List.append_eq]
    rw [collectFiles_append rest l2]
    cases scanOutcome fo with
    | error e => rfl
    | ok ns =>
      cases collectFiles rest with
      | error e => rfl
      | ok more =>
        cases collectFiles l2 with
        | error e => rfl
        | ok m2 => simp [List.append_assoc]

theorem collectSections_eq : ∀ secs : List InwellingSection,
    collectSections secs = collectFiles ((secs.map InwellingSection.files).flatten)
  | [] => rfl
  | sec :: rest => by
    simp only [collectSections, List.map_cons, List.flatten_cons, collectFiles_append,
      collectSections_eq rest]

theorem collectFiles_skip_parseFail (pre post : List FileOutcome) :
    collectFiles (pre ++ FileOutcome.parseFail :: post) = collectFiles (pre ++ post) := by
  rw [collectFiles_append, collectFiles_append]
  have hskip : collectFiles (FileOutcome.parseFail :: post) = collectFiles post := by
    simp only [collectFiles, scanOutcome]
    cases collectFiles post <;> simp
  rw [hskip]

theorem collectFiles_skip_middle (A B C : List FileOutcome) :
    collectFiles (A ++ (B ++ FileOutcome.parseFail :: C)) = collectFiles (A ++ (B ++ C)) := by
  rw [← List.append_assoc, ← List.append_assoc]
  exact collectFiles_skip_parseFail (A ++ B) C

/-! ## Helper lemmas: reserved names, tag detection, structx -/

theorem isReservedName_iff (n : String) :
    isReservedName n = true ↔ n ∈ reservedNamesList := by
  constructor
  · intro h
    unfold isReservedName at h
    split at h <;> simp_all [reservedNamesList]
  · intro h
    simp only [reservedNamesList, List.mem_cons, List.not_mem_nil, or_false] at h
    rcases h with rfl | rfl | rfl | rfl | rfl | rfl | rfl | rfl | rfl | rfl | rfl
      | rfl | rfl | rfl | rfl | rfl | rfl | rfl | rfl | rfl | rfl <;> rfl

theorem is_ident_optic_iff (p : SynPath) :
    p.is_ident "optic" = true ↔
      p.leadingColon = false ∧ p.segments = [PathSegment.mk "optic" false] := by
  rcases p with ⟨lc, segs⟩
  simp only [SynPath.is_ident]
  cases lc <;> cases segs with
  | nil => simp
  | cons seg tail =>
    cases tail with
    | nil =>
      rcases seg with ⟨id, hargs⟩
      cases hargs <;> simp [beq_iff_eq]
    | cons b t => simp

theorem memberNames_fatal_iff : ∀ fs : List Member,
    isFatal (memberNames fs) = true ↔ Member.unnamed ∈ fs
  | [] => by simp [memberNames, isFatal]
  | m :: ms => by
    cases m with
    | unnamed => simp [memberNames, memberName, isFatal]
    | named s =>
      simp only [memberNames, memberName]
      have ih := memberNames_fatal_iff ms
      cases h : memberNames ms with
      | error e => rw [h] at ih; simp_all [isFatal]
      | ok rest => rw [h] at ih; simp_all [isFatal]

/-! ## The claims -/

/-- C1, the claim as stated, refuted: the generated output is not one
three-line declaration block per name with consecutive blocks separated
by exactly one blank line and a single trailing blank line — already
for the singleton canonical sequence `["x"]` the emitted text differs
from that shape. -/
theorem emit_layout_claim_false : emit ["x"] ≠ claimShapedEmit ["x"] := by decide

/-- C1, amended: for every non-empty canonical name sequence, the
generated output consists of the three content lines (derive line,
allow line, struct line) per name in sequence order, but each emitted
block carries two leading blank lines and one trailing blank line: the
whole output starts with two blank lines, consecutive blocks are
separated by three blank lines (the separator `"\n\n\n\n"` after a
`;`-terminated struct line), and one blank line follows the final
block. -/
theorem emit_block_layout (names : List String) (h : names ≠ []) :
    emit names = "\n\n" ++ sepConcat "\n\n\n\n" (names.map coreBlock) ++ "\n\n" := by
  cases names with
  | nil => exact absurd rfl h
  | cons a rest =>
    rw [emit_eq_concatAll]
    exact concatAll_blocks a rest

/-- C1 witness: the amended layout at the concrete sequence `["x"]`. -/
theorem emit_block_layout_witness :
    emit ["x"] = "\n\n" ++ sepConcat "\n\n\n\n" (["x"].map coreBlock) ++ "\n\n" :=
  emit_block_layout ["x"] (by decide)

/-- C2, the claim as stated, refuted: with the structx extension
enabled it is not the case that every `structx`/`Structx` invocation
whose tokens do not form a valid named-field struct pattern aborts the
run — when the brace-wrapped tokens fail to parse as a pattern at all,
the `if let Ok` in `parse_structx` falls through and the invocation is
silently skipped (nothing inserted, no panic). -/
theorem structx_invalid_not_always_fatal :
    ¬ ∀ (path : SynPath) (r : PatParseResult),
        isStructxMacroPath path = true → ¬ validNamedFieldPat r →
        isFatal (collectItem (Item.macroItem path r)) = true := by
  intro h
  have hv : ¬ validNamedFieldPat PatParseResult.err := by
    rintro ⟨fields, heq, -⟩
    exact PatParseResult.noConfusion heq
  have hc := h ⟨false, [⟨"structx", false⟩]⟩ PatParseResult.err (by decide) hv
  exact absurd hc (by decide)

/-- C2, amended: scanning a `structx`/`Structx` invocation aborts the
run exactly when its wrapped tokens parse as a pattern that is not a
named-field struct pattern — a non-struct pattern, or a struct pattern
containing an unnamed member; when the tokens fail to parse as any
pattern, the invocation is silently skipped with nothing inserted. -/
theorem structx_fatal_characterization (path : SynPath) (r : PatParseResult)
    (h : isStructxMacroPath path = true) :
    (isFatal (collectItem (Item.macroItem path r)) = true ↔
      ∃ p, r = PatParseResult.ok p ∧
        (p = SynPat.otherPat ∨ ∃ fs, p = SynPat.structPat fs ∧ Member.unnamed ∈ fs)) ∧
    collectItem (Item.macroItem path PatParseResult.err) = Except.ok [] := by
  constructor
  · simp only [collectItem, h, if_true]
    cases r with
    | err => simp [parse_structx, isFatal]
    | ok p =>
      cases p with
      | otherPat => simp [parse_structx, isFatal]
      | structPat fs => simp [parse_structx, memberNames_fatal_iff fs]
  · simp [collectItem, h, parse_structx]

/-- C2 witness: the characterization applied at the unqualified
`structx` path, second component: unparseable tokens are skipped. -/
theorem structx_fatal_characterization_witness :
    collectItem (Item.macroItem ⟨false, [⟨"structx", false⟩]⟩ PatParseResult.err)
      = Except.ok [] :=
  (structx_fatal_characterization ⟨false, [⟨"structx", false⟩]⟩ PatParseResult.err
    (by decide)).2

/-- C3: when the previous output reads back equal to the new output,
the decision-and-write tail prints exactly one rerun directive per
collected manifest path and then writes the new output; when the read
fails or the content differs it prints none; the write happens in every
case, after the directives. -/
theorem incremental_decision_directives (prev : Option String) (out : String)
    (ms : List String) (path : String) :
    (prev = some out →
      decisionStage prev out ms path
        = ms.map (fun m => Effect.directive (rerunDirective m)) ++ [Effect.wrote path out]) ∧
    (prev ≠ some out → decisionStage prev out ms path = [Effect.wrote path out]) := by
  constructor
  · rintro rfl
    simp [decisionStage, rerunDirectives]
  · intro hne
    cases prev with
    | none => simp [decisionStage, rerunDirectives]
    | some f =>
      have hfo : ¬ f = out := fun hh => hne (by rw [hh])
      simp [decisionStage, rerunDirectives, hfo]

/-- C3 witness: equal previous output, one manifest. -/
theorem incremental_decision_directives_witness :
    decisionStage (some "OUT") "OUT" ["m1"] "p"
      = (["m1"].map fun m => Effect.directive (rerunDirective m)) ++ [Effect.wrote "p" "OUT"] :=
  (incremental_decision_directives (some "OUT") "OUT" ["m1"] "p").1 rfl

/-- C4: a name appears in the canonical sequence iff it was collected
and is not one of the reserved names `Some`, `None`, `Ok`, `Err`,
`_0`..`_16`: reserved names are removed before emission even when a tag
put them in the set, and every other collected name is kept. -/
theorem reserved_names_never_emitted (names : List String) (n : String) :
    n ∈ canonicalize names ↔ n ∈ names ∧ n ∉ reservedNamesList := by
  unfold canonicalize
  rw [List.mem_insertionSort, List.mem_filter, List.mem_dedup]
  constructor
  · rintro ⟨h1, h2⟩
    refine ⟨h1, fun hmem => ?_⟩
    rw [← isReservedName_iff] at hmem
    simp [hmem] at h2
  · rintro ⟨h1, h2⟩
    have hf : isReservedName n = false := by
      cases hb : isReservedName n
      · rfl
      · exact absurd ((isReservedName_iff n).mp hb) h2
    exact ⟨h1, by simp [hf]⟩

/-- C5: permuting workspace members or source files does not change the
canonical name sequence or the generated output: two section lists
whose flattened file sequences are permutations of one another and
whose scans both succeed canonicalize to the same sequence and emit the
same output. -/
theorem pipeline_order_independent (s1 s2 : List InwellingSection) (n1 n2 : List String)
    (hp : ((s1.map InwellingSection.files).flatten).Perm
      ((s2.map InwellingSection.files).flatten))
    (h1 : collectSections s1 = Except.ok n1)
    (h2 : collectSections s2 = Except.ok n2) :
    canonicalize n1 = canonicalize n2 ∧ emit (canonicalize n1) = emit (canonicalize n2) := by
  rw [collectSections_eq] at h1 h2
  have e1 := collectFiles_ok_val _ _ h1
  have e2 := collectFiles_ok_val _ _ h2
  have hperm : n1.Perm n2 := by
    rw [e1, e2]
    exact (hp.map _).flatten
  have hcan := canonicalize_perm hperm
  exact ⟨hcan, by rw [hcan]⟩

/-- C5 witness: two one-file members presented in either order. -/
theorem pipeline_order_independent_witness :
    canonicalize ["x", "y"] = canonicalize ["y", "x"]
      ∧ emit (canonicalize ["x", "y"]) = emit (canonicalize ["y", "x"]) :=
  pipeline_order_independent
    [⟨"m1", [FileOutcome.parsed [Item.structItem (StructFields.named [⟨"x", [opticAttr]⟩])]]⟩,
     ⟨"m2", [FileOutcome.parsed [Item.structItem (StructFields.named [⟨"y", [opticAttr]⟩])]]⟩]
    [⟨"m2", [FileOutcome.parsed [Item.structItem (StructFields.named [⟨"y", [opticAttr]⟩])]]⟩,
     ⟨"m1", [FileOutcome.parsed [Item.structItem (StructFields.named [⟨"x", [opticAttr]⟩])]]⟩]
    ["x", "y"] ["y", "x"] (by decide) rfl rfl

/-- C6: for the workspace file
`struct Point { #[optic] x: i32, #[optic] y: i32 }`, scanning collects
`x` and `y`, the canonical sequence is `["x", "y"]` in sorted order,
and the output is exactly the two declaration blocks for `x` then `y`. -/
theorem point_struct_two_blocks :
    collectFile pointFile = Except.ok ["x", "y"]
      ∧ canonicalize ["x", "y"] = ["x", "y"]
      ∧ emit (canonicalize ["x", "y"]) = declBlock "x" ++ declBlock "y" := by
  refine ⟨rfl, by decide, ?_⟩
  rw [show canonicalize ["x", "y"] = ["x", "y"] from by decide]
  rfl

/-- C7: a source file that fails to parse is skipped without aborting
the run: a run whose section contains an unparseable file produces
exactly the same effects and abort status as the same run without that
file, so names tagged in every other parseable file are still collected
and emitted. -/
theorem parse_failure_isolated (secsPre secsPost : List InwellingSection) (m : String)
    (fpre fpost : List FileOutcome) (outDir : Option String) (prev : Option String) :
    mainRun ⟨secsPre ++ ⟨m, fpre ++ FileOutcome.parseFail :: fpost⟩ :: secsPost, outDir, prev⟩
      = mainRun ⟨secsPre ++ ⟨m, fpre ++ fpost⟩ :: secsPost, outDir, prev⟩ := by
  have hsec : collectSections (secsPre ++ ⟨m, fpre ++ FileOutcome.parseFail :: fpost⟩ :: secsPost)
      = collectSections (secsPre ++ ⟨m, fpre ++ fpost⟩ :: secsPost) := by
    rw [collectSections_eq, collectSections_eq]
    simp only [List.map_append, List.map_cons, List.flatten_append, List.flatten_cons,
      List.append_assoc, List.cons_append]
    exact collectFiles_skip_middle _ _ _
  have hman : (secsPre ++ (⟨m, fpre ++ FileOutcome.parseFail :: fpost⟩ : InwellingSection)
        :: secsPost).map InwellingSection.manifest
      = (secsPre ++ (⟨m, fpre ++ fpost⟩ : InwellingSection) :: secsPost).map
        InwellingSection.manifest := by
    simp
  simp only [mainRun, hsec, hman]

/-- C8: a run that aborts fatally (unreadable or non-UTF-8 source,
usage panic during scanning, missing `OUT_DIR`) writes nothing: if
`mainRun` ends with a panic no write effect was produced, and a
effects of a successful run are the rerun directives followed, last, by
the single write of the emitted output — the write happens only after
the whole pipeline through emission has succeeded. -/
theorem fatal_abort_writes_nothing (inp : RunInput) (effs : List Effect) (res : Option String)
    (h : mainRun inp = (effs, res)) :
    (res.isSome = true → ∀ p c, Effect.wrote p c ∉ effs) ∧
    (res = none → ∃ dir, inp.outDir = some dir ∧
      effs = (rerunDirectives inp.prevRead
          (emit (canonicalize (exceptVal (collectSections inp.sections))))
          (inp.sections.map InwellingSection.manifest)).map Effect.directive
        ++ [Effect.wrote (dir ++ "/optics.rs")
            (emit (canonicalize (exceptVal (collectSections inp.sections))))]) := by
  unfold mainRun at h
  cases hc : collectSections inp.sections with
  | error e =>
    simp only [hc] at h
    cases h
    constructor
    · intro _ p c
      simp
    · intro hn
      simp at hn
  | ok names =>
    simp only [hc] at h
    cases ho : inp.outDir with
    | none =>
      simp only [ho] at h
      cases h
      constructor
      · intro _ p c
        simp
      · intro hn
        simp at hn
    | some dir =>
      simp only [ho] at h
      cases h
      constructor
      · intro hs
        simp at hs
      · intro _
        refine ⟨dir, rfl, ?_⟩
        simp [decisionStage, hc, exceptVal]

/-- C8 witness: the run with no `OUT_DIR` aborts and writes nothing. -/
theorem fatal_abort_writes_nothing_witness :
    Effect.wrote "out" "text" ∉ (mainRun ⟨[], none, none⟩).1 :=
  (fatal_abort_writes_nothing ⟨[], none, none⟩ [] (some "$OUT_DIR should exist.") rfl).1
    rfl "out" "text"

/-- C9: tag detection inspects only the attribute path: a variant or a
field is tagged iff one of its attributes has a path with no leading
colon that is exactly the single argument-free segment `optic` —
whatever argument tokens the attribute carries (so `#[optic(ref)]`
tags), and never for a multi-segment path such as `#[some::optic]`. -/
theorem optic_tag_inspects_path_only (var : Variant) (field : Field) :
    (variant_with_optic_attr var = true ↔
      ∃ attr ∈ var.attrs,
        attr.path.leadingColon = false ∧ attr.path.segments = [PathSegment.mk "optic" false]) ∧
    (field_with_optic_attr field = true ↔
      ∃ attr ∈ field.attrs,
        attr.path.leadingColon = false ∧ attr.path.segments = [PathSegment.mk "optic" false]) := by
  constructor <;>
    simp [variant_with_optic_attr, field_with_optic_attr, List.any_eq_true, is_ident_optic_iff]

/-- C10: structs without named fields contribute nothing: visiting a
tuple struct — whatever attributes its unnamed fields carry — or a unit
struct inserts no names and raises no error, while a named-field struct
contributes exactly its optic-tagged field names. -/
theorem non_named_struct_fields_ignored :
    (∀ fieldAttrs, collectFile [Item.structItem (StructFields.unnamed fieldAttrs)]
        = Except.ok [])
      ∧ collectFile [Item.structItem StructFields.unit] = Except.ok []
      ∧ (∀ fields, collectFile [Item.structItem (StructFields.named fields)]
          = Except.ok ((fields.filter field_with_optic_attr).map Field.ident)) := by
  refine ⟨fun fieldAttrs => rfl, rfl, fun fields => ?_⟩
  simp [collectFile, collectItem]

end LensGen
